import Mathlib

/-!
Verification of the sensor-fan, odometry-tracker and laser-scan components of
the cartographer excerpt.  Scalars that the C++ code stores as `float`/`double`
are embedded as exact rationals (`ℚ`); machine floats carry no further
semantics needed by the properties below, except NaN, which is modelled
explicitly where the code tests for it (`Option ℚ`, with `none` standing for
NaN).  Point clouds are lists in insertion order, mirroring `std::vector`.
-/

namespace Cartographer

/-- A 3D point, as `Eigen::Vector3f` with exact rational coordinates. -/
abbrev Q3 : Type := ℚ × ℚ × ℚ

/-- Componentwise difference of two 3D points, as `Eigen` vector subtraction. -/
def sub3 (a b : Q3) : Q3 := (a.1 - b.1, a.2.1 - b.2.1, a.2.2 - b.2.2)

/-- Squared Euclidean norm of a 3D vector. -/
def normSq3 (v : Q3) : ℚ := v.1 ^ 2 + v.2.1 ^ 2 + v.2.2 ^ 2

/-- Euclidean distance between two 3D points, the value of
`(a - b).norm()` in the source. -/
noncomputable def dist3 (a b : Q3) : ℝ := Real.sqrt (normSq3 (sub3 a b))

/-- A 3D laser fan: `cartographer::sensor::LaserFan3D` with `origin`,
`returns`, `misses` and per-return `reflectivities` (uint8 values). -/
structure LaserFan3D where
  origin : Q3
  returns : List Q3
  misses : List Q3
  reflectivities : List ℕ
deriving DecidableEq

/-- Element access `cloud[i]` for point clouds (all uses are in bounds). -/
def pget (l : List Q3) (i : ℕ) : Q3 := l.getD i (0, 0, 0)

/-- Modelled from the spec: the quantization resolution of the compressed
point cloud (`CompressedPointCloud` is not part of the excerpt; the spec
describes it as a lossy, quantized encoding).  One grid step. -/
def kPrecision : ℚ := 1 / 1000

/-- Modelled from the spec: quantization of a single coordinate to the
nearest multiple of `kPrecision`. -/
def quantizeQ (x : ℚ) : ℚ := (round (x / kPrecision) : ℚ) * kPrecision

/-- Modelled from the spec: componentwise quantization of a 3D point. -/
def quantize3 (p : Q3) : Q3 := (quantizeQ p.1, quantizeQ p.2.1, quantizeQ p.2.2)

/-- Closeness within quantization tolerance: the two points differ by at
most half a grid step in every coordinate. -/
def closeQ (a b : Q3) : Prop :=
  |a.1 - b.1| ≤ kPrecision / 2 ∧ |a.2.1 - b.2.1| ≤ kPrecision / 2 ∧
    |a.2.2 - b.2.2| ≤ kPrecision / 2

/-- Lexicographic sort key of a point, used to fix the compressed order. -/
def ptKey (p : Q3) : Lex (ℚ × Lex (ℚ × ℚ)) := toLex (p.1, toLex (p.2.1, p.2.2))

/-- Lexicographic order on 3D points used by the modelled compression. -/
def ptLe (a b : Q3) : Prop := ptKey a ≤ ptKey b

instance : DecidableRel ptLe := fun a b => by
  unfold ptLe; infer_instance

/-- Index comparison: compares the quantized points a cloud holds at two
indices. -/
def idxLe (cloud : List Q3) (i j : ℕ) : Prop :=
  ptLe (quantize3 (pget cloud i)) (quantize3 (pget cloud j))

instance (cloud : List Q3) : DecidableRel (idxLe cloud) := fun i j => by
  unfold idxLe; infer_instance

instance (cloud : List Q3) : IsTotal ℕ (idxLe cloud) :=
  ⟨fun i j => le_total (ptKey (quantize3 (pget cloud i))) (ptKey (quantize3 (pget cloud j)))⟩

instance (cloud : List Q3) : IsTrans ℕ (idxLe cloud) :=
  ⟨fun _ _ _ hij hjk => le_trans hij hjk⟩

/-- Modelled from the spec: the `new_to_old` index mapping produced by
`CompressedPointCloud::CompressAndReturnOrder` (not in the excerpt): the
returns are reordered into a canonical order of their quantized values, and
the permutation from new index to old index is recorded. -/
def newToOld (cloud : List Q3) : List ℕ :=
  List.insertionSort (idxLe cloud) (List.range cloud.length)

/-- Modelled from the spec: the decoded content of a compressed point cloud,
namely the quantized points listed in compressed (sorted) order. -/
def compressPoints (cloud : List Q3) : List Q3 :=
  (newToOld cloud).map (fun i => quantize3 (pget cloud i))

/-- Modelled from the spec: `cartographer::sensor::CompressedPointCloud`
(implementation not in the excerpt), keeping the quantized points in
compressed order. -/
structure CompressedPointCloud where
  points : List Q3
deriving DecidableEq

/-- Modelled from the spec: `CompressedPointCloud::Decompress` returns the
stored (quantized, reordered) points. -/
def CompressedPointCloud.decompress (c : CompressedPointCloud) : List Q3 :=
  c.points

/-- Modelled from the spec: the `CompressedPointCloud` constructor that
compresses a cloud without reporting the order. -/
def compressPointCloud (cloud : List Q3) : CompressedPointCloud :=
  ⟨compressPoints cloud⟩

/-- `cartographer::sensor::CompressedLaserFan3D`. -/
structure CompressedLaserFan3D where
  origin : Q3
  returns : CompressedPointCloud
  misses : CompressedPointCloud
  reflectivities : List ℕ
deriving DecidableEq

/-- Reorders reflectivities according to the index mapping, as the loop in
`laser.cc`: `reordered[i] = reflectivities[new_to_old[i]]` for every
`i < reflectivities.size()`; out-of-bounds reads are modelled by the
checked variant below. -/
def ReorderReflectivities (reflectivities : List ℕ) (new_to_old : List ℕ) : List ℕ :=
  (List.range reflectivities.length).map
    (fun i => reflectivities.getD (new_to_old.getD i 0) 0)

/-- Sequences a list of checked accesses: `none` as soon as one access
fails, the list of all results otherwise. -/
def optionTraverse {α β : Type} (f : α → Option β) : List α → Option (List β)
  | [] => some []
  | a :: l => (f a).bind (fun b => (optionTraverse f l).map (fun bs => b :: bs))

/-- Bounds-checked model of the same loop: every vector access is checked,
and the whole call yields `none` as soon as one access is out of bounds. -/
def ReorderReflectivitiesChecked (reflectivities : List ℕ) (new_to_old : List ℕ) :
    Option (List ℕ) :=
  optionTraverse
    (fun i => (new_to_old[i]?).bind (fun j => reflectivities[j]?))
    (List.range reflectivities.length)

/-- `cartographer::sensor::Compress` from `laser.cc`: compress the returns
recording `new_to_old`, compress the misses independently, reorder the
reflectivities by `new_to_old`. -/
def Compress (laser_fan : LaserFan3D) : CompressedLaserFan3D :=
  { origin := laser_fan.origin
    returns := ⟨compressPoints laser_fan.returns⟩
    misses := compressPointCloud laser_fan.misses
    reflectivities :=
      ReorderReflectivities laser_fan.reflectivities (newToOld laser_fan.returns) }

/-- `cartographer::sensor::Decompress` from `laser.cc`. -/
def Decompress (compressed_laser_fan : CompressedLaserFan3D) : LaserFan3D :=
  { origin := compressed_laser_fan.origin
    returns := compressed_laser_fan.returns.decompress
    misses := compressed_laser_fan.misses.decompress
    reflectivities := compressed_laser_fan.reflectivities }

/-- The membership test of the filter loop in `laser.cc`:
`(return_ - origin).norm() <= max_range`, written as the equivalent
decidable comparison on rationals (see `withinRange_iff_dist3`). -/
def withinRange (origin p : Q3) (max_range : ℚ) : Bool :=
  decide (0 ≤ max_range ∧ normSq3 (sub3 p origin) ≤ max_range ^ 2)

/-- `cartographer::sensor::FilterLaserFanByMaxRange` from `laser.cc`: keep
only the returns within `max_range` of the origin; misses and
reflectivities of the result are empty. -/
def FilterLaserFanByMaxRange (laser_fan : LaserFan3D) (max_range : ℚ) : LaserFan3D :=
  { origin := laser_fan.origin
    returns := laser_fan.returns.filter (fun p => withinRange laser_fan.origin p max_range)
    misses := []
    reflectivities := [] }

/-- A point pushed onto a 2D cloud by `ToLaserFan`, recorded in polar form:
the source stores `Eigen::Rotation2Df(angle) * Eigen::Vector2f(dist, 0)`,
the point at distance `dist` along the beam direction of angle `angle`, which
this pair determines (see `PolarPoint.toVec` for the Euclidean reading). -/
structure PolarPoint where
  angle : ℚ
  dist : ℚ
deriving DecidableEq

/-- The Euclidean vector a `PolarPoint` denotes:
`Rotation2D(angle) * (dist, 0) = (dist * cos angle, dist * sin angle)`. -/
noncomputable def PolarPoint.toVec (p : PolarPoint) : ℝ × ℝ :=
  ((p.dist : ℝ) * Real.cos (p.angle : ℝ), (p.dist : ℝ) * Real.sin (p.angle : ℝ))

/-- The 2D laser fan `cartographer::sensor::LaserFan`. -/
structure LaserFan where
  origin : ℚ × ℚ
  point_cloud : List PolarPoint
  missing_echo_point_cloud : List PolarPoint
deriving DecidableEq

/-- The raw scan message `cartographer::sensor::proto::LaserScan`: angle
bounds and increment, and per beam a list of echo values.  An echo value is
`Option ℚ`, with `none` standing for a NaN reading. -/
structure LaserScanProto where
  angle_min : ℚ
  angle_max : ℚ
  angle_increment : ℚ
  range : List (List (Option ℚ))
deriving DecidableEq

/-- The body of the loop in `ToLaserFan` for one beam: given the echo list of
the beam at angle `angle`, the optional point appended to the returns cloud
and the optional point appended to the misses cloud.  Follows lines 49-60 of
`laser.cc`: only the first echo is read; a beam with no echoes, a NaN first
echo or a first echo below `min_range` contributes nothing. -/
def beamContrib (min_range max_range missing_echo_ray_length angle : ℚ)
    (values : List (Option ℚ)) : Option PolarPoint × Option PolarPoint :=
  match values with
  | [] => (none, none)
  | first_echo :: _ =>
    match first_echo with
    | none => (none, none)
    | some r =>
      if min_range ≤ r then
        if r ≤ max_range then (some ⟨angle, r⟩, none)
        else (none, some ⟨angle, missing_echo_ray_length⟩)
      else (none, none)

/-- The loop of `ToLaserFan`: walk the beams, keeping the running angle that
starts at `angle_min` and advances by `angle_increment` after every beam,
collecting the returns and the misses in insertion order. -/
def scanBeams (angle_increment min_range max_range missing_echo_ray_length : ℚ) :
    ℚ → List (List (Option ℚ)) → List PolarPoint × List PolarPoint
  | _, [] => ([], [])
  | angle, values :: rest =>
    let c := beamContrib min_range max_range missing_echo_ray_length angle values
    let r := scanBeams angle_increment min_range max_range missing_echo_ray_length
      (angle + angle_increment) rest
    (c.1.toList ++ r.1, c.2.toList ++ r.2)

/-- `cartographer::sensor::ToLaserFan` from `laser.cc`.  The three `CHECK`
macros abort the process when violated; the aborting outcome is modelled as
`none`, and the successfully constructed fan as `some`. -/
def ToLaserFan (proto : LaserScanProto)
    (min_range max_range missing_echo_ray_length : ℚ) : Option LaserFan :=
  if 0 ≤ min_range ∧ 0 < proto.angle_increment ∧ proto.angle_min < proto.angle_max then
    some
      { origin := (0, 0)
        point_cloud :=
          (scanBeams proto.angle_increment min_range max_range
            missing_echo_ray_length proto.angle_min proto.range).1
        missing_echo_point_cloud :=
          (scanBeams proto.angle_increment min_range max_range
            missing_echo_ray_length proto.angle_min proto.range).2 }
  else none

/-- Modelled from the spec: the per-beam classification in the spec's own
words, used to state the construction claim as a refinement.  For each beam
index `i` at angle `angle_min + i * angle_increment`, take only the first
echo value; if it is not-a-number or below `min_range`, skip it entirely; if
it exceeds `max_range`, record a synthetic missing-echo point at distance
`missing_echo_ray_length` along the beam; otherwise record the real return
point. -/
def specBeamPoints (angle_min angle_increment min_range max_range
    missing_echo_ray_length : ℚ) (ranges : List (List (Option ℚ))) :
    List PolarPoint × List PolarPoint :=
  let contrib := fun (i : ℕ) =>
    let θ : ℚ := angle_min + (i : ℚ) * angle_increment
    match (ranges.getD i []).head? with
    | some (some r) =>
      if r < min_range then (([] : List PolarPoint), ([] : List PolarPoint))
      else if max_range < r then ([], [⟨θ, missing_echo_ray_length⟩])
      else ([⟨θ, r⟩], [])
    | some none => ([], [])
    | none => ([], [])
  (((List.range ranges.length).map contrib).map Prod.fst |>.flatten,
   ((List.range ranges.length).map contrib).map Prod.snd |>.flatten)

/-- A rigid 3D transform `cartographer::transform::Rigid3d`: translation and
rotation quaternion `(w, x, y, z)`. -/
structure Rigid3 where
  translation : Q3
  rotation : ℚ × ℚ × ℚ × ℚ
deriving DecidableEq

/-- `Rigid3d::Identity()`: zero translation, unit quaternion. -/
def Rigid3.identity : Rigid3 := ⟨(0, 0, 0), (1, 0, 0, 0)⟩

/-- `common::Time::min()`: the minimum of the int64 tick count. -/
def timeMin : ℤ := -(2 ^ 63)

/-- `cartographer::kalman_filter::OdometryState`, with the default member
values of the header: `time = common::Time::min()` and identity poses. -/
structure OdometryState where
  time : ℤ
  odometer_pose : Rigid3
  state_pose : Rigid3
deriving DecidableEq

/-- The state built by the default constructor `OdometryState()`. -/
def defaultOdometryState : OdometryState :=
  ⟨timeMin, Rigid3.identity, Rigid3.identity⟩

/-- `cartographer::kalman_filter::OdometryStateTracker`: the deque of states
(oldest first) and the window size fixed at construction. -/
structure OdometryStateTracker where
  odometry_states : List OdometryState
  window_size : ℕ
deriving DecidableEq

/-- The constructor `OdometryStateTracker(window_size)`: empty deque. -/
def mkTracker (window_size : ℕ) : OdometryStateTracker :=
  ⟨[], window_size⟩

/-- Modelled from the spec: the body of `AddOdometryState` (only its header
declaration is in the excerpt): append the state at the back and, once the
number of states exceeds `window_size`, evict the oldest entry at the
front. -/
def AddOdometryState (t : OdometryStateTracker) (s : OdometryState) :
    OdometryStateTracker :=
  let st := t.odometry_states ++ [s]
  ⟨if t.window_size < st.length then st.tail else st, t.window_size⟩

/-- Modelled from the spec: `empty()` is true iff no states are present. -/
def OdometryStateTracker.empty (t : OdometryStateTracker) : Bool :=
  t.odometry_states.isEmpty

/-- Modelled from the spec: `newest()` retrieves the most recent state, or a
default-constructed one if none is present yet. -/
def newest (t : OdometryStateTracker) : OdometryState :=
  (t.odometry_states.getLast?).getD defaultOdometryState

/-! ### Helper lemmas -/

/-- Reading a list back off the range of its indices. -/
lemma map_getD_range {α : Type} (l : List α) (d : α) :
    (List.range l.length).map (fun i => l.getD i d) = l := by
  induction l with
  | nil => rfl
  | cons a l ih =>
    rw [List.length_cons, List.range_succ_eq_map, List.map_cons, List.map_map]
    simp only [List.getD_cons_zero, Function.comp_def, Nat.succ_eq_add_one,
      List.getD_cons_succ]
    rw [ih]

/-- Indexing into a map over a range. -/
lemma getD_map_range {β : Type} (g : ℕ → β) (m i : ℕ) (d : β) (h : i < m) :
    ((List.range m).map g).getD i d = g i := by
  have hlen : i < ((List.range m).map g).length := by
    simpa using h
  rw [List.getD_eq_getElem _ _ hlen, List.getElem_map, List.getElem_range]

/-- Indexing into a map over an arbitrary index list. -/
lemma getD_map_list {β : Type} (g : ℕ → β) (l : List ℕ) (i : ℕ) (d : β)
    (h : i < l.length) :
    (l.map g).getD i d = g (l.getD i 0) := by
  have hlen : i < (l.map g).length := by simpa using h
  rw [List.getD_eq_getElem _ _ hlen, List.getElem_map, List.getD_eq_getElem _ _ h]

/-- The filter predicate of `FilterLaserFanByMaxRange` is the comparison of
the Euclidean distance with the range bound. -/
lemma withinRange_iff_dist3 (o p : Q3) (m : ℚ) :
    withinRange o p m = true ↔ dist3 p o ≤ (m : ℝ) := by
  rw [withinRange, decide_eq_true_iff, dist3, Real.sqrt_le_iff]
  constructor
  · rintro ⟨h0, h1⟩
    refine ⟨by exact_mod_cast h0, ?_⟩
    have : ((normSq3 (sub3 p o) : ℚ) : ℝ) ≤ ((m ^ 2 : ℚ) : ℝ) := by exact_mod_cast h1
    simpa using this
  · rintro ⟨h0, h1⟩
    refine ⟨by exact_mod_cast h0, ?_⟩
    have : ((normSq3 (sub3 p o) : ℚ) : ℝ) ≤ ((m ^ 2 : ℚ) : ℝ) := by
      push_cast
      simpa using h1
    exact_mod_cast this

/-! ### Claim theorems -/

/-- C6: fan construction aborts (yields no fan) exactly when `min_range < 0`
or `angle_increment ≤ 0` or `angle_max ≤ angle_min`; for all other
parameters it succeeds, regardless of the range values. -/
theorem toLaserFan_check_failure (p : LaserScanProto) (minr maxr mel : ℚ) :
    ToLaserFan p minr maxr mel = none ↔
      minr < 0 ∨ p.angle_increment ≤ 0 ∨ p.angle_max ≤ p.angle_min := by
  unfold ToLaserFan
  split_ifs with h
  · constructor
    · intro hc
      exact hc.elim
    · rintro (hc | hc | hc)
      · exact absurd h.1 (not_le.mpr hc)
      · exact absurd h.2.1 (not_lt.mpr hc)
      · exact absurd h.2.2 (not_lt.mpr hc)
  · constructor
    · intro _
      rw [not_and_or, not_and_or] at h
      rcases h with h | h | h
      · exact Or.inl (not_le.mp h)
      · exact Or.inr (Or.inl (not_lt.mp h))
      · exact Or.inr (Or.inr (not_lt.mp h))
    · intro _
      rfl

/-- C3: every return kept by `FilterLaserFanByMaxRange` lies within
`max_range` of the origin, every input return within that distance is kept,
and the resulting misses and reflectivities are empty no matter the input. -/
theorem filterByMaxRange_spec (f : LaserFan3D) (m : ℚ) :
    (∀ p ∈ (FilterLaserFanByMaxRange f m).returns, dist3 p f.origin ≤ (m : ℝ)) ∧
    (∀ p ∈ f.returns, dist3 p f.origin ≤ (m : ℝ) →
      p ∈ (FilterLaserFanByMaxRange f m).returns) ∧
    (FilterLaserFanByMaxRange f m).misses = [] ∧
    (FilterLaserFanByMaxRange f m).reflectivities = [] := by
  refine ⟨?_, ?_, rfl, rfl⟩
  · intro p hp
    rw [FilterLaserFanByMaxRange] at hp
    simp only [List.mem_filter] at hp
    exact (withinRange_iff_dist3 f.origin p m).mp hp.2
  · intro p hp hd
    rw [FilterLaserFanByMaxRange]
    simp only [List.mem_filter]
    exact ⟨hp, (withinRange_iff_dist3 f.origin p m).mpr hd⟩

/-- Witness for C3 at a concrete fan: the in-range return `(3, 4, 0)` is
kept (its distance from the origin is 5) and the misses come out empty. -/
theorem filterByMaxRange_spec_witness :
    ((3, 4, 0) : Q3) ∈ (FilterLaserFanByMaxRange
        ⟨(0, 0, 0), [(3, 4, 0), (10, 0, 0)], [(1, 1, 1)], [7, 8]⟩ 5).returns ∧
      (FilterLaserFanByMaxRange
        ⟨(0, 0, 0), [(3, 4, 0), (10, 0, 0)], [(1, 1, 1)], [7, 8]⟩ 5).misses = [] := by
  refine ⟨(filterByMaxRange_spec
      ⟨(0, 0, 0), [(3, 4, 0), (10, 0, 0)], [(1, 1, 1)], [7, 8]⟩ 5).2.1
      (3, 4, 0) (by decide) ?_,
    (filterByMaxRange_spec
      ⟨(0, 0, 0), [(3, 4, 0), (10, 0, 0)], [(1, 1, 1)], [7, 8]⟩ 5).2.2.1⟩
  exact (withinRange_iff_dist3 (0, 0, 0) (3, 4, 0) 5).mp
    (by norm_num [withinRange, normSq3, sub3])

/-- Folding a sequence of insertions: the stored states are the suffix of
the appended sequence that fits in the window. -/
lemma foldl_addOdometryState (k : ℕ) (l s0 : List OdometryState)
    (h : s0.length ≤ k) :
    (l.foldl AddOdometryState ⟨s0, k⟩).odometry_states =
      (s0 ++ l).drop ((s0 ++ l).length - k) := by
  induction l generalizing s0 with
  | nil =>
    simp only [List.foldl_nil, List.append_nil]
    rw [Nat.sub_eq_zero_of_le h, List.drop_zero]
  | cons a l ih =>
    rw [List.foldl_cons]
    have hstep : AddOdometryState ⟨s0, k⟩ a =
        ⟨if k < (s0 ++ [a]).length then (s0 ++ [a]).tail else s0 ++ [a], k⟩ := rfl
    rw [hstep]
    by_cases hk : k < (s0 ++ [a]).length
    · rw [if_pos hk]
      cases s0 with
      | nil =>
        have hk0 : k = 0 := by
          simp only [List.nil_append, List.length_singleton] at hk
          omega
        subst hk0
        simp only [List.nil_append, List.tail_cons]
        rw [ih [] (by simp)]
        simp
      | cons x xs =>
        have hxs : xs.length + 1 = k := by
          simp only [List.cons_append, List.length_cons, List.length_append,
            List.length_singleton, List.length_nil] at hk
          simp only [List.length_cons] at h
          omega
        have htail : ((x :: xs) ++ [a]).tail = xs ++ [a] := by simp
        rw [htail, ih (xs ++ [a])
          (by rw [List.length_append, List.length_singleton]; omega)]
        have e1 : (xs ++ [a]) ++ l = xs ++ a :: l := by simp
        have e2 : (x :: xs) ++ a :: l = x :: (xs ++ a :: l) := by simp
        rw [e1, e2]
        have e3 : (x :: (xs ++ a :: l)).length - k = (xs ++ a :: l).length - k + 1 := by
          simp only [List.length_cons, List.length_append]
          omega
        rw [e3, List.drop_succ_cons]
    · rw [if_neg hk]
      have hle : (s0 ++ [a]).length ≤ k := not_lt.mp hk
      rw [ih _ hle]
      have harr : (s0 ++ a :: l) = (s0 ++ [a]) ++ l := by simp
      rw [harr]

/-- C4: on a tracker of window size `k ≥ 1`, the number of stored states
never exceeds `k`, and after `n ≥ k` insertions exactly the last `k`
appended states are stored, in append order (the oldest entry is evicted on
each insertion once the bound is reached). -/
theorem tracker_window_bound (k : ℕ) (hk : 1 ≤ k) (l : List OdometryState) :
    (l.foldl AddOdometryState (mkTracker k)).odometry_states.length ≤ k ∧
    (k ≤ l.length →
      (l.foldl AddOdometryState (mkTracker k)).odometry_states.length = k ∧
      (l.foldl AddOdometryState (mkTracker k)).odometry_states =
        l.drop (l.length - k)) := by
  have hbase := foldl_addOdometryState k l [] (by simp)
  simp only [List.nil_append] at hbase
  rw [mkTracker] at *
  constructor
  · rw [hbase, List.length_drop]
    omega
  · intro hn
    refine ⟨?_, hbase⟩
    rw [hbase, List.length_drop]
    omega

/-- Witness for C4: window size 2, three insertions, keeping the last two
states in order. -/
theorem tracker_window_bound_witness :
    ([⟨1, Rigid3.identity, Rigid3.identity⟩,
      ⟨2, Rigid3.identity, Rigid3.identity⟩,
      ⟨3, Rigid3.identity, Rigid3.identity⟩].foldl
        AddOdometryState (mkTracker 2)).odometry_states.length = 2 ∧
    ([⟨1, Rigid3.identity, Rigid3.identity⟩,
      ⟨2, Rigid3.identity, Rigid3.identity⟩,
      ⟨3, Rigid3.identity, Rigid3.identity⟩].foldl
        AddOdometryState (mkTracker 2)).odometry_states =
      [⟨2, Rigid3.identity, Rigid3.identity⟩,
       ⟨3, Rigid3.identity, Rigid3.identity⟩] := by
  have h := (tracker_window_bound 2 (by decide)
    [⟨1, Rigid3.identity, Rigid3.identity⟩,
     ⟨2, Rigid3.identity, Rigid3.identity⟩,
     ⟨3, Rigid3.identity, Rigid3.identity⟩]).2 (by decide)
  exact ⟨h.1, by rw [h.2]; decide⟩

/-- C7: a fresh tracker is empty and its `newest` is the default state
(minimum time, identity poses); adding a state to it makes it non-empty
with that state as `newest`; and on any tracker of positive window size the
state just added is `newest`. -/
theorem tracker_newest_spec (k : ℕ) (t : OdometryStateTracker)
    (s : OdometryState) (hk : 1 ≤ k) (ht : 1 ≤ t.window_size) :
    (mkTracker k).empty = true ∧
    newest (mkTracker k) = ⟨timeMin, Rigid3.identity, Rigid3.identity⟩ ∧
    (AddOdometryState (mkTracker k) s).empty = false ∧
    newest (AddOdometryState (mkTracker k) s) = s ∧
    newest (AddOdometryState t s) = s := by
  have hgen : ∀ (u : OdometryStateTracker), 1 ≤ u.window_size →
      newest (AddOdometryState u s) = s := by
    intro u hu
    rw [AddOdometryState, newest]
    by_cases hcase : u.window_size < (u.odometry_states ++ [s]).length
    · simp only [if_pos hcase]
      cases hst : u.odometry_states with
      | nil =>
        rw [hst] at hcase
        simp at hcase
        omega
      | cons x xs =>
        simp only [List.cons_append, List.tail_cons]
        rw [List.getLast?_concat]
        rfl
    · simp only [if_neg hcase]
      rw [List.getLast?_concat]
      rfl
  refine ⟨rfl, rfl, ?_, hgen (mkTracker k) hk, hgen t ht⟩
  rw [AddOdometryState]
  simp only [mkTracker, List.nil_append, List.length_singleton]
  by_cases hcase : k < 1
  · omega
  · simp only [if_neg hcase]
    rfl

/-- Witness for C7 at window size 1: the freshly added state is returned by
`newest` and the tracker is no longer empty. -/
theorem tracker_newest_spec_witness :
    newest (AddOdometryState (mkTracker 1)
      ⟨7, Rigid3.identity, Rigid3.identity⟩) =
      ⟨7, Rigid3.identity, Rigid3.identity⟩ ∧
    (AddOdometryState (mkTracker 1)
      ⟨7, Rigid3.identity, Rigid3.identity⟩).empty = false := by
  have h := tracker_newest_spec 1 (mkTracker 1)
    ⟨7, Rigid3.identity, Rigid3.identity⟩ (by decide) (by decide)
  exact ⟨h.2.2.2.1, h.2.2.1⟩

/-- The running-angle loop of `ToLaserFan`, written with the angle of each
beam computed from its index: beam `i` is processed at `θ0 + i * inc`. -/
lemma scanBeams_eq_indexed (inc minr maxr mel : ℚ) (rs : List (List (Option ℚ)))
    (θ0 : ℚ) :
    scanBeams inc minr maxr mel θ0 rs =
      (((List.range rs.length).map (fun (i : ℕ) =>
          (beamContrib minr maxr mel (θ0 + (i : ℚ) * inc) (rs.getD i [])).1.toList)).flatten,
       ((List.range rs.length).map (fun (i : ℕ) =>
          (beamContrib minr maxr mel (θ0 + (i : ℚ) * inc) (rs.getD i [])).2.toList)).flatten) := by
  induction rs generalizing θ0 with
  | nil => rfl
  | cons vs rest ih =>
    rw [List.length_cons, List.range_succ_eq_map, List.map_cons, List.map_cons,
      List.flatten_cons, List.flatten_cons, List.map_map, List.map_map]
    have hhead : ∀ w : (Option PolarPoint × Option PolarPoint) → Option PolarPoint,
        (w (beamContrib minr maxr mel (θ0 + ((0 : ℕ) : ℚ) * inc)
          ((vs :: rest).getD 0 []))).toList =
        (w (beamContrib minr maxr mel θ0 vs)).toList := by
      intro w
      norm_num
    have hfun1 : ((fun (i : ℕ) =>
        (beamContrib minr maxr mel (θ0 + (i : ℚ) * inc)
          ((vs :: rest).getD i [])).1.toList) ∘ Nat.succ) =
        (fun (i : ℕ) => (beamContrib minr maxr mel ((θ0 + inc) + (i : ℚ) * inc)
          (rest.getD i [])).1.toList) := by
      funext i
      simp only [Function.comp_apply, Nat.succ_eq_add_one, List.getD_cons_succ]
      congr 2
      push_cast
      ring_nf
    have hfun2 : ((fun (i : ℕ) =>
        (beamContrib minr maxr mel (θ0 + (i : ℚ) * inc)
          ((vs :: rest).getD i [])).2.toList) ∘ Nat.succ) =
        (fun (i : ℕ) => (beamContrib minr maxr mel ((θ0 + inc) + (i : ℚ) * inc)
          (rest.getD i [])).2.toList) := by
      funext i
      simp only [Function.comp_apply, Nat.succ_eq_add_one, List.getD_cons_succ]
      congr 2
      push_cast
      ring_nf
    rw [hfun1, hfun2, hhead (Prod.fst), hhead (Prod.snd)]
    show (let c := beamContrib minr maxr mel θ0 vs
          let r := scanBeams inc minr maxr mel (θ0 + inc) rest
          (c.1.toList ++ r.1, c.2.toList ++ r.2)) = _
    rw [ih (θ0 + inc)]

/-- A single beam of the source loop matches the spec's classification of
the first echo. -/
lemma beamContrib_matches_spec (minr maxr mel θ : ℚ) (vs : List (Option ℚ)) :
    ((beamContrib minr maxr mel θ vs).1.toList,
     (beamContrib minr maxr mel θ vs).2.toList) =
      (match vs.head? with
       | some (some r) =>
         if r < minr then (([] : List PolarPoint), ([] : List PolarPoint))
         else if maxr < r then ([], [⟨θ, mel⟩])
         else ([⟨θ, r⟩], [])
       | some none => ([], [])
       | none => ([], [])) := by
  match vs with
  | [] => rfl
  | none :: tl => rfl
  | some r :: tl =>
    simp only [beamContrib, List.head?_cons]
    rcases lt_or_le r minr with hlo | hlo
    · rw [if_neg (not_le.mpr hlo), if_pos hlo]
      rfl
    · rw [if_pos hlo, if_neg (not_lt.mpr hlo)]
      rcases le_or_lt r maxr with hhi | hhi
      · rw [if_pos hhi, if_neg (not_lt.mpr hhi)]
        rfl
      · rw [if_neg (not_le.mpr hhi), if_pos hhi]
        rfl

/-- The spec-side construction coincides with the indexed collection of the
per-beam contributions of the source loop. -/
lemma specBeamPoints_eq_beams (amin inc minr maxr mel : ℚ)
    (rs : List (List (Option ℚ))) :
    specBeamPoints amin inc minr maxr mel rs =
      (((List.range rs.length).map (fun (i : ℕ) =>
          (beamContrib minr maxr mel (amin + (i : ℚ) * inc) (rs.getD i [])).1.toList)).flatten,
       ((List.range rs.length).map (fun (i : ℕ) =>
          (beamContrib minr maxr mel (amin + (i : ℚ) * inc) (rs.getD i [])).2.toList)).flatten) := by
  rw [specBeamPoints]
  dsimp only
  rw [List.map_map, List.map_map]
  refine Prod.ext ?_ ?_
  · exact congrArg List.flatten
      (List.map_congr_left (fun i _ =>
        (congrArg Prod.fst (beamContrib_matches_spec minr maxr mel
          (amin + (i : ℚ) * inc) (rs.getD i []))).symm))
  · exact congrArg List.flatten
      (List.map_congr_left (fun i _ =>
        (congrArg Prod.snd (beamContrib_matches_spec minr maxr mel
          (amin + (i : ℚ) * inc) (rs.getD i []))).symm))

/-- C2: under valid configuration, fan construction sorts every beam by its
first echo exactly as the spec words it: the beam at angle
`angle_min + i * angle_increment` is skipped when the first echo is NaN or
below `min_range`, appends a synthetic point at `missing_echo_ray_length`
along the beam to the misses when the echo exceeds `max_range`, and appends
the real return at the echo distance otherwise. -/
theorem toLaserFan_classification (p : LaserScanProto) (minr maxr mel : ℚ)
    (h1 : 0 ≤ minr) (h2 : 0 < p.angle_increment) (h3 : p.angle_min < p.angle_max) :
    ToLaserFan p minr maxr mel =
      some
        { origin := (0, 0)
          point_cloud :=
            (specBeamPoints p.angle_min p.angle_increment minr maxr mel p.range).1
          missing_echo_point_cloud :=
            (specBeamPoints p.angle_min p.angle_increment minr maxr mel p.range).2 } := by
  rw [ToLaserFan, if_pos ⟨h1, h2, h3⟩]
  rw [scanBeams_eq_indexed, specBeamPoints_eq_beams]

/-- Witness for C2 at a concrete five-beam scan exercising all cases: a
real return, an empty beam, a NaN, an over-range echo and a below-minimum
echo. -/
theorem toLaserFan_classification_witness :
    ToLaserFan ⟨0, 5, 1, [[some 2], [], [none], [some 20], [some 0]]⟩ 1 10 7 =
      some
        { origin := (0, 0)
          point_cloud := (specBeamPoints 0 1 1 10 7
            [[some 2], [], [none], [some 20], [some 0]]).1
          missing_echo_point_cloud := (specBeamPoints 0 1 1 10 7
            [[some 2], [], [none], [some 20], [some 0]]).2 } :=
  toLaserFan_classification ⟨0, 5, 1, [[some 2], [], [none], [some 20], [some 0]]⟩
    1 10 7 (by decide) (by decide) (by decide)

/-- C9: under valid configuration, the angle a beam is processed at is
determined solely by its index (`angle_min + i * angle_increment`,
independent of how many earlier beams produced points), and a beam with an
empty echo list contributes no point to either cloud while still advancing
the angle for later beams. -/
theorem toLaserFan_empty_beam (p : LaserScanProto) (minr maxr mel : ℚ)
    (h1 : 0 ≤ minr) (h2 : 0 < p.angle_increment) (h3 : p.angle_min < p.angle_max) :
    (ToLaserFan p minr maxr mel =
      some
        { origin := (0, 0)
          point_cloud := ((List.range p.range.length).map (fun (i : ℕ) =>
            (beamContrib minr maxr mel (p.angle_min + (i : ℚ) * p.angle_increment)
              (p.range.getD i [])).1.toList)).flatten
          missing_echo_point_cloud := ((List.range p.range.length).map (fun (i : ℕ) =>
            (beamContrib minr maxr mel (p.angle_min + (i : ℚ) * p.angle_increment)
              (p.range.getD i [])).2.toList)).flatten }) ∧
    (∀ θ : ℚ, beamContrib minr maxr mel θ [] = (none, none)) := by
  refine ⟨?_, fun θ => rfl⟩
  rw [ToLaserFan, if_pos ⟨h1, h2, h3⟩]
  rw [scanBeams_eq_indexed]

/-- Witness for C9: a scan whose middle beam has no echoes; the theorem
applies and the empty beam yields no contribution. -/
theorem toLaserFan_empty_beam_witness :
    ToLaserFan ⟨0, 4, 2, [[some 3], [], [some 5]]⟩ 0 10 9 =
      some
        { origin := (0, 0)
          point_cloud := ((List.range
              ([[some 3], [], [some 5]] : List (List (Option ℚ))).length).map (fun (i : ℕ) =>
            (beamContrib 0 10 9 ((0 : ℚ) + (i : ℚ) * 2)
              (([[some 3], [], [some 5]] : List (List (Option ℚ))).getD i [])).1.toList)).flatten
          missing_echo_point_cloud := ((List.range
              ([[some 3], [], [some 5]] : List (List (Option ℚ))).length).map (fun (i : ℕ) =>
            (beamContrib 0 10 9 ((0 : ℚ) + (i : ℚ) * 2)
              (([[some 3], [], [some 5]] : List (List (Option ℚ))).getD i [])).2.toList)).flatten } :=
  (toLaserFan_empty_beam ⟨0, 4, 2, [[some 3], [], [some 5]]⟩ 0 10 9
    (by decide) (by decide) (by decide)).1

/-- Checked indexing succeeds exactly on in-bounds indices. -/
lemma isSome_getElemQ {α : Type} (l : List α) (n : ℕ) :
    l[n]?.isSome = true ↔ n < l.length := by
  constructor
  · intro h
    by_contra hc
    push_neg at hc
    rw [List.getElem?_eq_none hc] at h
    simp at h
  · intro h
    rw [List.getElem?_eq_getElem h]
    rfl

/-- The checked traversal succeeds iff every element does. -/
lemma optionTraverse_isSome {α β : Type} (f : α → Option β) (l : List α) :
    ((optionTraverse f l).isSome = true) ↔ ∀ a ∈ l, (f a).isSome = true := by
  induction l with
  | nil => simp [optionTraverse]
  | cons a l ih =>
    rw [optionTraverse]
    cases hfa : f a with
    | none =>
      simp only [Option.none_bind, Option.isSome_none, Bool.false_eq_true, false_iff,
        not_forall]
      exact ⟨a, List.mem_cons_self a l, by rw [hfa]; simp⟩
    | some b =>
      rw [Option.some_bind]
      constructor
      · intro h x hx
        rcases List.mem_cons.mp hx with hxa | hxl
        · rw [hxa, hfa]; rfl
        · refine ih.mp ?_ x hxl
          cases hml : optionTraverse f l with
          | none => simp [hml] at h
          | some bs => rfl
      · intro h
        have hl := ih.mpr (fun x hx => h x (List.mem_cons_of_mem a hx))
        cases hml : optionTraverse f l with
        | none => simp [hml] at hl
        | some bs => simp [hml]

/-- The checked traversal on everywhere-defined data is the plain map. -/
lemma optionTraverse_eq_some_map {α β : Type} (f : α → Option β) (g : α → β)
    (l : List α) (h : ∀ a ∈ l, f a = some (g a)) :
    optionTraverse f l = some (l.map g) := by
  induction l with
  | nil => rfl
  | cons a l ih =>
    rw [optionTraverse, h a (List.mem_cons_self a l),
      ih (fun x hx => h x (List.mem_cons_of_mem a hx))]
    rfl

/-- C10: the reflectivity reordering reads `reflectivities[new_to_old[i]]`
for every `i` below the reflectivity count; it is memory-safe precisely
when `new_to_old` has at least that many entries, each a valid index into
the reflectivities; in particular it is safe whenever the reflectivities
pair up with the returns and `new_to_old` is a permutation of the return
indices, and a fan with empty reflectivities performs no access at all. -/
theorem reorderReflectivities_safety (rs n2o : List ℕ) :
    ((ReorderReflectivitiesChecked rs n2o).isSome = true ↔
      (rs.length ≤ n2o.length ∧ ∀ i < rs.length, n2o.getD i 0 < rs.length)) ∧
    (∀ returns : List Q3, rs.length = returns.length →
      n2o.Perm (List.range returns.length) →
      ReorderReflectivitiesChecked rs n2o =
        some (ReorderReflectivities rs n2o)) ∧
    (rs = [] → ReorderReflectivitiesChecked rs n2o = some []) := by
  refine ⟨?_, ?_, ?_⟩
  · rw [ReorderReflectivitiesChecked, optionTraverse_isSome]
    constructor
    · intro h
      constructor
      · by_contra hlen
        push_neg at hlen
        have hmem := h n2o.length (List.mem_range.mpr hlen)
        rw [List.getElem?_eq_none (le_refl _)] at hmem
        simp at hmem
      · intro i hi
        have hmem := h i (List.mem_range.mpr hi)
        cases hio : n2o[i]? with
        | none =>
          rw [hio] at hmem
          simp at hmem
        | some j =>
          rw [hio, Option.some_bind] at hmem
          have hj : j < rs.length := (isSome_getElemQ rs j).mp hmem
          have hilen : i < n2o.length := by
            by_contra hc
            push_neg at hc
            rw [List.getElem?_eq_none hc] at hio
            exact Option.noConfusion hio
          rw [List.getElem?_eq_getElem hilen] at hio
          have hji : n2o.getD i 0 = j := by
            rw [List.getD_eq_getElem _ _ hilen]
            exact Option.some.inj hio
          rw [hji]
          exact hj
    · rintro ⟨hlen, hidx⟩ i hi
      have hi' := List.mem_range.mp hi
      have hilen : i < n2o.length := lt_of_lt_of_le hi' hlen
      rw [List.getElem?_eq_getElem hilen, Option.some_bind, isSome_getElemQ]
      have h := hidx i hi'
      rwa [List.getD_eq_getElem _ _ hilen] at h
  · intro returns hlen hperm
    have hn2o : n2o.length = returns.length := by
      rw [hperm.length_eq, List.length_range]
    rw [ReorderReflectivitiesChecked, ReorderReflectivities]
    apply optionTraverse_eq_some_map
    intro i hi
    have hi' : i < rs.length := List.mem_range.mp hi
    have hilen : i < n2o.length := by omega
    rw [List.getElem?_eq_getElem hilen, Option.some_bind]
    have hmem : n2o[i] ∈ List.range returns.length :=
      hperm.subset (List.getElem_mem hilen)
    have hlt : n2o[i] < rs.length := by
      rw [hlen]
      exact List.mem_range.mp hmem
    rw [List.getElem?_eq_getElem hlt]
    congr 1
    rw [List.getD_eq_getElem _ _ hilen, List.getD_eq_getElem _ _ hlt]
  · intro h
    subst h
    rfl

/-- Witness for C10: a two-element reflectivity vector with the recorded
permutation `[1, 0]` over a two-point cloud is reordered safely. -/
theorem reorderReflectivities_safety_witness :
    ReorderReflectivitiesChecked [10, 20] [1, 0] = some [20, 10] := by
  have h := (reorderReflectivities_safety [10, 20] [1, 0]).2.1
    [(0, 0, 0), (0, 0, 1)] (by decide) (by decide)
  rw [h]
  decide

/-- Quantization is idempotent on a coordinate. -/
lemma quantizeQ_idem (x : ℚ) : quantizeQ (quantizeQ x) = quantizeQ x := by
  rw [quantizeQ, quantizeQ]
  have hp : (kPrecision : ℚ) ≠ 0 := by norm_num [kPrecision]
  rw [mul_div_assoc, div_self hp, mul_one, round_intCast]

/-- Quantization is idempotent on a point. -/
lemma quantize3_idem (p : Q3) : quantize3 (quantize3 p) = quantize3 p := by
  rw [quantize3, quantize3]
  simp only [quantizeQ_idem]

/-- A coordinate moves by at most half a grid step under quantization. -/
lemma abs_quantizeQ_sub (x : ℚ) : |quantizeQ x - x| ≤ kPrecision / 2 := by
  have hp : (0 : ℚ) < kPrecision := by norm_num [kPrecision]
  rw [quantizeQ]
  have key : (round (x / kPrecision) : ℚ) * kPrecision - x =
      ((round (x / kPrecision) : ℚ) - x / kPrecision) * kPrecision := by
    rw [sub_mul, div_mul_cancel₀ _ (ne_of_gt hp)]
  rw [key, abs_mul, abs_of_pos hp, abs_sub_comm]
  calc |x / kPrecision - (round (x / kPrecision) : ℚ)| * kPrecision
      ≤ (1 / 2) * kPrecision :=
        mul_le_mul_of_nonneg_right (abs_sub_round (x / kPrecision)) hp.le
    _ = kPrecision / 2 := by ring

/-- A point is within quantization tolerance of its quantized value. -/
lemma quantize3_close (p : Q3) : closeQ (quantize3 p) p :=
  ⟨abs_quantizeQ_sub p.1, abs_quantizeQ_sub p.2.1, abs_quantizeQ_sub p.2.2⟩

/-- The recorded order is a permutation of the return indices. -/
lemma newToOld_perm (c : List Q3) :
    (newToOld c).Perm (List.range c.length) :=
  List.perm_insertionSort (idxLe c) (List.range c.length)

/-- The recorded order has one entry per return. -/
lemma newToOld_length (c : List Q3) : (newToOld c).length = c.length := by
  rw [(newToOld_perm c).length_eq, List.length_range]

/-- Every used entry of the recorded order is a valid return index. -/
lemma newToOld_getD_lt (c : List Q3) (i : ℕ) (h : i < c.length) :
    (newToOld c).getD i 0 < c.length := by
  have hl : i < (newToOld c).length := by rw [newToOld_length]; exact h
  rw [List.getD_eq_getElem _ _ hl]
  exact List.mem_range.mp ((newToOld_perm c).subset (List.getElem_mem hl))

/-- Reading a cloud back off the range of its indices. -/
lemma map_pget_range (c : List Q3) :
    (List.range c.length).map (fun i => pget c i) = c :=
  map_getD_range c (0, 0, 0)

/-- The decoded compressed returns are a permutation of the quantized input
returns. -/
lemma compressPoints_perm (c : List Q3) :
    (compressPoints c).Perm (c.map quantize3) := by
  rw [compressPoints]
  have h := (newToOld_perm c).map (fun i => quantize3 (pget c i))
  refine h.trans ?_
  have heq : (List.range c.length).map (fun i => quantize3 (pget c i)) =
      ((List.range c.length).map (fun i => pget c i)).map quantize3 := by
    rw [List.map_map]
    rfl
  rw [heq, map_pget_range]

/-- The compressed order is sorted by the point order. -/
lemma compressPoints_pairwise (c : List Q3) :
    (compressPoints c).Pairwise ptLe := by
  rw [compressPoints]
  rw [List.pairwise_map]
  exact List.sorted_insertionSort (idxLe c) (List.range c.length)

/-- Every decoded compressed point is already quantized. -/
lemma compressPoints_quantized (c : List Q3) :
    ∀ p ∈ compressPoints c, quantize3 p = p := by
  intro p hp
  rw [compressPoints] at hp
  obtain ⟨i, _, rfl⟩ := List.mem_map.mp hp
  exact quantize3_idem (pget c i)

/-- On a sorted, already-quantized cloud, the recorded order is the
identity permutation. -/
lemma newToOld_of_sorted (cl : List Q3) (hs : cl.Pairwise ptLe)
    (hq : ∀ p ∈ cl, quantize3 p = p) :
    newToOld cl = List.range cl.length := by
  rw [newToOld]
  apply List.Sorted.insertionSort_eq
  show (List.range cl.length).Pairwise (idxLe cl)
  rw [List.pairwise_iff_getElem]
  intro i j hi hj hij
  rw [List.getElem_range, List.getElem_range]
  rw [List.length_range] at hi hj
  have hgi : pget cl i = cl[i] := List.getD_eq_getElem cl (0, 0, 0) hi
  have hgj : pget cl j = cl[j] := List.getD_eq_getElem cl (0, 0, 0) hj
  have hqi : quantize3 (pget cl i) = pget cl i := by
    rw [hgi]; exact hq (cl[i]) (List.getElem_mem hi)
  have hqj : quantize3 (pget cl j) = pget cl j := by
    rw [hgj]; exact hq (cl[j]) (List.getElem_mem hj)
  rw [idxLe, hqi, hqj, hgi, hgj]
  exact List.pairwise_iff_getElem.mp hs i j hi hj hij

/-- Compressing a sorted, already-quantized cloud decodes to the cloud
itself. -/
lemma compressPoints_of_sorted (cl : List Q3) (hs : cl.Pairwise ptLe)
    (hq : ∀ p ∈ cl, quantize3 p = p) :
    compressPoints cl = cl := by
  rw [compressPoints, newToOld_of_sorted cl hs hq]
  have h : (List.range cl.length).map (fun i => quantize3 (pget cl i)) =
      (List.range cl.length).map (fun i => pget cl i) := by
    apply List.map_congr_left
    intro i hi
    have hlt : i < cl.length := List.mem_range.mp hi
    have hgt : pget cl i = cl[i] := List.getD_eq_getElem cl (0, 0, 0) hlt
    rw [hgt]
    exact hq (cl[i]) (List.getElem_mem hlt)
  rw [h, map_pget_range]

/-- C1: decompressing a compressed 3D fan recovers the origin exactly and
the multiset of return points up to quantization (each decoded return
within half a grid step of the original return it encodes), and pairs every
decoded return with the reflectivity of the original point it came from,
through the recorded `new_to_old` permutation. -/
theorem compress_decompress_roundtrip (f : LaserFan3D)
    (h : f.reflectivities.length = f.returns.length) :
    (Decompress (Compress f)).origin = f.origin ∧
    ((Decompress (Compress f)).returns).Perm (f.returns.map quantize3) ∧
    (Decompress (Compress f)).returns.length = f.returns.length ∧
    (Decompress (Compress f)).reflectivities.length = f.returns.length ∧
    (∀ i, i < f.returns.length →
      (newToOld f.returns).getD i 0 < f.returns.length ∧
      (Decompress (Compress f)).returns.getD i (0, 0, 0) =
        quantize3 (pget f.returns ((newToOld f.returns).getD i 0)) ∧
      closeQ ((Decompress (Compress f)).returns.getD i (0, 0, 0))
        (pget f.returns ((newToOld f.returns).getD i 0)) ∧
      (Decompress (Compress f)).reflectivities.getD i 0 =
        f.reflectivities.getD ((newToOld f.returns).getD i 0) 0) := by
  have hret : (Decompress (Compress f)).returns = compressPoints f.returns := rfl
  have hrefl : (Decompress (Compress f)).reflectivities =
      ReorderReflectivities f.reflectivities (newToOld f.returns) := rfl
  refine ⟨rfl, ?_, ?_, ?_, ?_⟩
  · rw [hret]
    exact compressPoints_perm f.returns
  · rw [hret, compressPoints, List.length_map, newToOld_length]
  · rw [hrefl, ReorderReflectivities, List.length_map, List.length_range, h]
  · intro i hi
    have hlt := newToOld_getD_lt f.returns i hi
    have hn2o : i < (newToOld f.returns).length := by
      rw [newToOld_length]; exact hi
    have hpt : (Decompress (Compress f)).returns.getD i (0, 0, 0) =
        quantize3 (pget f.returns ((newToOld f.returns).getD i 0)) := by
      rw [hret, compressPoints]
      exact getD_map_list (fun j => quantize3 (pget f.returns j))
        (newToOld f.returns) i (0, 0, 0) hn2o
    refine ⟨hlt, hpt, ?_, ?_⟩
    · rw [hpt]
      exact quantize3_close (pget f.returns ((newToOld f.returns).getD i 0))
    · rw [hrefl, ReorderReflectivities]
      have hi' : i < f.reflectivities.length := by rw [h]; exact hi
      exact getD_map_range
        (fun j => f.reflectivities.getD ((newToOld f.returns).getD j 0) 0)
        f.reflectivities.length i 0 hi'

/-- Witness for C1 at a concrete fan with two returns and matching
reflectivities. -/
theorem compress_decompress_roundtrip_witness :
    (Decompress (Compress ⟨(1, 2, 3), [(2, 0, 0), (1, 0, 0)], [(5, 5, 5)],
      [9, 4]⟩)).origin = ((1 : ℚ), (2 : ℚ), (3 : ℚ)) ∧
    (Decompress (Compress ⟨(1, 2, 3), [(2, 0, 0), (1, 0, 0)], [(5, 5, 5)],
      [9, 4]⟩)).returns.length = 2 ∧
    (Decompress (Compress ⟨(1, 2, 3), [(2, 0, 0), (1, 0, 0)], [(5, 5, 5)],
      [9, 4]⟩)).reflectivities.length = 2 := by
  have h := compress_decompress_roundtrip
    ⟨(1, 2, 3), [(2, 0, 0), (1, 0, 0)], [(5, 5, 5)], [9, 4]⟩ (by decide)
  exact ⟨h.1, h.2.2.1, h.2.2.2.1⟩

/-- C8: compressing the decompressed form of any compressed fan — whose
returns are already quantized and in compressed (sorted) order — and
decoding again yields exactly the point list of the first decode:
compression is idempotent with respect to the decoded point set. -/
theorem compress_idempotent_on_decoded (f : LaserFan3D) :
    (Decompress (Compress (Decompress (Compress f)))).returns =
      (Decompress (Compress f)).returns := by
  have h1 : (Decompress (Compress f)).returns = compressPoints f.returns := rfl
  have h2 : (Decompress (Compress (Decompress (Compress f)))).returns =
      compressPoints (Decompress (Compress f)).returns := rfl
  rw [h2, h1]
  exact compressPoints_of_sorted (compressPoints f.returns)
    (compressPoints_pairwise f.returns)
    (compressPoints_quantized f.returns)

end Cartographer

